import Mathlib

/-!
# In-memory user CRUD service (main.go)

A shallow embedding of the five HTTP handlers of main.go over the process-wide
slice users. The slice is a List User passed explicitly: every handler maps the
store before the request to the response written with c.JSON and the store
after the request. Go int is taken to be 64 bits wide (strconv.IntSize on the
usual targets); the only arithmetic in the program, the + 1 of createUser, wraps.

The JSON binding of gin (c.BindJSON) and strconv.Atoi are library code; they are
embedded by what they leave in their target and what they return.
-/

namespace GinSwagger

/-! ## Go int -/

/-- Width of the Go type int in bits. -/
def intSize : Nat := 64

/-- Largest value of the Go type int. -/
def maxInt : Int := 2 ^ (intSize - 1) - 1

/-- Smallest value of the Go type int. -/
def minInt : Int := -(2 ^ (intSize - 1))

/-- Two-complement reduction of a mathematical integer to the Go type int. -/
def wrapInt (x : Int) : Int := (x - minInt) % 2 ^ intSize + minInt

/-- Go addition on int: the sum is reduced modulo 2 ^ intSize. -/
def goAdd (a b : Int) : Int := wrapInt (a + b)

/-! ## Data model -/

/-- User represents a user in the system. -/
structure User where
  ID : Int
  Name : String
  Email : String
deriving DecidableEq, Repr

/-- The store: the contents of the slice held in the package variable users. -/
abbrev Store := List User

/-- The mock database as initialised at process start. -/
def users : Store :=
  [ { ID := 1, Name := "John Doe", Email := "john@example.com" },
    { ID := 2, Name := "Jane Doe", Email := "jane@example.com" } ]

/-- The zero value of User, the content of var newUser User. -/
def zeroUser : User := { ID := 0, Name := "", Email := "" }

/-! ## Request bodies and JSON binding -/

/-- The members of a JSON request body that the decoder stores into a User:
none for a member that is absent (or null), some v for a member that decodes
to v. Unknown members are dropped by the decoder and do not appear. -/
structure Fields where
  ID : Option Int
  Name : Option String
  Email : Option String
deriving DecidableEq, Repr

/-- Storing decoded members into a target struct: a member that is present
overwrites the field, a member that is absent leaves the field as it was. -/
def Fields.store (p : Fields) (u : User) : User :=
  { ID := p.ID.getD u.ID, Name := p.Name.getD u.Name, Email := p.Email.getD u.Email }

/-- A request body as seen by c.BindJSON. Either it decodes (decoded p), or the
call returns an error with message msg (failed msg p); in the second case the
decoder may already have stored the well-typed members p into its target
(encoding/json skips an ill-typed member and completes the rest), and p has no
member at all when the body is not well-formed JSON. -/
inductive Body where
  | decoded (p : Fields)
  | failed (msg : String) (p : Fields)
deriving DecidableEq, Repr

/-- The members a body stores into the target of the bind. -/
def Body.fields : Body → Fields
  | .decoded p => p
  | .failed _ p => p

/-- The call c.BindJSON(&target): the value left in the target, and the error
(none for nil). -/
def bindJSON : Body → User → User × Option String
  | .decoded p, u => (p.store u, none)
  | .failed msg p, u => (p.store u, some msg)

/-! ## strconv.Atoi -/

/-- The two error kinds of package strconv. -/
inductive NumError where
  | errSyn
  | errRange
deriving DecidableEq, Repr

/-- Largest uint64. -/
def maxUint64 : Nat := 2 ^ 64 - 1

/-- The digit loop of strconv.ParseUint in base 10 with bitSize 64: n is the
value accumulated so far. A character that is no digit is an error of form
(value 0); an overflow returns at once with the largest value. -/
def parseUintLoop : List Char → Nat → Nat × Option NumError
  | [], n => (n, none)
  | c :: cs, n =>
    if !c.isDigit then (0, some .errSyn)
    else if n ≥ maxUint64 / 10 + 1 then (maxUint64, some .errRange)
    else
      let n1 := n * 10 + (c.toNat - 48)
      if n1 > maxUint64 then (maxUint64, some .errRange) else parseUintLoop cs n1

/-- Function strconv.ParseUint(s, 10, 64). -/
def parseUint (s : List Char) : Nat × Option NumError :=
  if s.isEmpty then (0, some .errSyn) else parseUintLoop s 0

/-- Function strconv.ParseInt(s, 10, 0): sign, magnitude, then the range check
against 1 << (intSize - 1), which clamps. -/
def parseInt (s : List Char) : Int × Option NumError :=
  if s.isEmpty then (0, some .errSyn)
  else
    let neg := s.head? == some '-'
    let t := if s.head? == some '+' || s.head? == some '-' then s.tail else s
    match parseUint t with
    | (_, some .errSyn) => (0, some .errSyn)
    | (un, e) =>
      let cutoff : Nat := 2 ^ (intSize - 1)
      if !neg && un ≥ cutoff then ((cutoff : Int) - 1, some .errRange)
      else if neg && un > cutoff then (-(cutoff : Int), some .errRange)
      else (if neg then -(un : Int) else (un : Int), e)

/-- The expression id, _ := strconv.Atoi(s): the value, with the error dropped. -/
def atoi (s : String) : Int := (parseInt s.toList).1

/-! ## Responses -/

/-- The object handed to c.JSON. -/
inductive Payload where
  | users (l : List User)
  | user (u : User)
  | error (msg : String)
  | message (msg : String)
deriving DecidableEq, Repr

/-- A response written with c.JSON(status, body). -/
structure Response where
  status : Nat
  body : Payload
deriving DecidableEq, Repr

def StatusOK : Nat := 200
def StatusCreated : Nat := 201
def StatusNoContent : Nat := 204
def StatusBadRequest : Nat := 400
def StatusNotFound : Nat := 404

/-- The response c.JSON(http.StatusNotFound, gin.H with error "user not found"). -/
def notFound : Response := { status := StatusNotFound, body := .error "user not found" }

/-- The gin context of a request, as far as the handlers read it: the path
parameter id and the request body. -/
structure Context where
  param : String
  body : Body

/-! ## Handlers -/

/-- Handler getUsers: answers 200 with the whole slice. -/
def getUsers (users : Store) : Response × Store :=
  ({ status := StatusOK, body := .users users }, users)

/-- Handler createUser. A body that does not bind answers 400. Otherwise the id
is users[len(users)-1].ID + 1, which is a runtime error (index out of range) on
the empty slice: the result is none and nothing is appended. -/
def createUser (body : Body) (users : Store) : Option (Response × Store) :=
  match bindJSON body zeroUser with
  | (_, some err) => some ({ status := StatusBadRequest, body := .error err }, users)
  | (newUser, none) =>
    match users[users.length - 1]? with
    | none => none
    | some last =>
      let newUser := { newUser with ID := goAdd last.ID 1 }
      some ({ status := StatusCreated, body := .user newUser }, users ++ [newUser])

/-- The range loop of getUser over the elements still to visit. -/
def getUserLoop (id : Int) (users : Store) : List User → Response × Store
  | [] => (notFound, users)
  | u :: rest =>
    if u.ID = id then ({ status := StatusOK, body := .user u }, users)
    else getUserLoop id users rest

/-- Handler getUser after the path parameter has been parsed to id. -/
def getUserById (id : Int) (users : Store) : Response × Store :=
  getUserLoop id users users

/-- Handler getUser. -/
def getUser (c : Context) (users : Store) : Response × Store :=
  getUserById (atoi c.param) users

/-- The range loop of updateUser: i is the index of the next element, the list
holds the elements still to visit. On the first match the body is bound into
users[i] in place, and the handler returns whether or not the bind succeeded. -/
def updateUserLoop (id : Int) (body : Body) (users : Store) : Nat → List User → Response × Store
  | _, [] => (notFound, users)
  | i, u :: rest =>
    if u.ID = id then
      match bindJSON body u with
      | (v, some err) => ({ status := StatusBadRequest, body := .error err }, users.set i v)
      | (v, none) => ({ status := StatusOK, body := .user v }, users.set i v)
    else updateUserLoop id body users (i + 1) rest

/-- Handler updateUser after the path parameter has been parsed to id. -/
def updateUserById (id : Int) (body : Body) (users : Store) : Response × Store :=
  updateUserLoop id body users 0 users

/-- Handler updateUser. -/
def updateUser (c : Context) (users : Store) : Response × Store :=
  updateUserById (atoi c.param) c.body users

/-- The range loop of deleteUser: on the first match at index i the slice
becomes append(users[:i], users[i+1:]...). -/
def deleteUserLoop (id : Int) (users : Store) : Nat → List User → Response × Store
  | _, [] => (notFound, users)
  | i, u :: rest =>
    if u.ID = id then
      ({ status := StatusNoContent, body := .message "user deleted" },
        users.take i ++ users.drop (i + 1))
    else deleteUserLoop id users (i + 1) rest

/-- Handler deleteUser after the path parameter has been parsed to id. -/
def deleteUserById (id : Int) (users : Store) : Response × Store :=
  deleteUserLoop id users 0 users

/-- Handler deleteUser. -/
def deleteUser (c : Context) (users : Store) : Response × Store :=
  deleteUserById (atoi c.param) users

/-! ## Sequences of mutating requests -/

/-- A mutating operation on the store. -/
inductive Op where
  | create (body : Body)
  | update (id : Int) (body : Body)
  | delete (id : Int)

/-- The store after an operation; a createUser that stops on the runtime error
has assigned nothing. -/
def Op.run : Op → Store → Store
  | .create body, s =>
    match createUser body s with
    | some (_, t) => t
    | none => s
  | .update id body, s => (updateUserById id body s).2
  | .delete id, s => (deleteUserById id s).2

/-- Stores reachable from the seed by finitely many create, update and delete
operations. -/
inductive Reachable : Store → Prop where
  | seed : Reachable users
  | step (op : Op) {s : Store} : Reachable s → Reachable (op.run s)

/-- An id is present in a store. -/
def Present (id : Int) (s : Store) : Prop := ∃ u ∈ s, u.ID = id

instance (id : Int) (s : Store) : Decidable (Present id s) := by
  unfold Present; infer_instance

/-- The operation leaves every id already in the store as it is and assigns a
new id without overflow: a create runs while the last id is below maxInt, an
update stores no id other than the one in its path, a delete is free. -/
def Op.KeepsIds : Op → Store → Prop
  | .create _, s => ∀ last, s.getLast? = some last → last.ID < maxInt
  | .update id body, _ => body.fields.ID = none ∨ body.fields.ID = some id
  | .delete _, _ => True

/-- Stores reachable from the seed by operations that keep ids. -/
inductive ReachableKeepingIds : Store → Prop where
  | seed : ReachableKeepingIds users
  | step (op : Op) {s : Store} :
      ReachableKeepingIds s → op.KeepsIds s → ReachableKeepingIds (op.run s)

/-- The ids, in sequence order, are strictly increasing ints. -/
def IdsAscending (s : Store) : Prop :=
  (s.map User.ID).Pairwise (· < ·) ∧ ∀ u ∈ s, minInt ≤ u.ID

/-- Stores reachable from the seed by operations none of which removes the
only record left: create and update are free, a delete runs on a store of two
records or more, or with an id that no record carries. -/
inductive ReachableKeepingOne : Store → Prop where
  | seed : ReachableKeepingOne users
  | create (body : Body) {s : Store} :
      ReachableKeepingOne s → ReachableKeepingOne ((Op.create body).run s)
  | update (id : Int) (body : Body) {s : Store} :
      ReachableKeepingOne s → ReachableKeepingOne ((Op.update id body).run s)
  | delete (id : Int) {s : Store} :
      ReachableKeepingOne s → 2 ≤ s.length ∨ ¬ Present id s →
        ReachableKeepingOne ((Op.delete id).run s)

/-- Stores reachable from the seed by create and delete operations only, below
integer overflow: a create runs while the last id is below maxInt. -/
inductive ReachableCreateDelete : Store → Prop where
  | seed : ReachableCreateDelete users
  | create (body : Body) {s : Store} :
      ReachableCreateDelete s → (∀ last, s.getLast? = some last → last.ID < maxInt) →
        ReachableCreateDelete ((Op.create body).run s)
  | delete (id : Int) {s : Store} :
      ReachableCreateDelete s → ReachableCreateDelete ((Op.delete id).run s)

/-- The characters of a path id after one optional sign. -/
def unsignedPart : List Char → List Char
  | [] => []
  | c :: t => if c = '+' ∨ c = '-' then t else c :: t

/-- A decimal integer: an optional sign followed by one decimal digit or more. -/
def isDecimalInteger (s : String) : Bool :=
  !(unsignedPart s.toList).isEmpty && (unsignedPart s.toList).all Char.isDigit

/-- Value of a run of decimal digits read after the value n. -/
def digitsValue (n : Nat) (ds : List Char) : Nat :=
  ds.foldl (fun a d => a * 10 + (d.toNat - 48)) n

/-- Value of the decimal digits that open the unsigned part of a path id. -/
def leadingValue (s : String) : Nat :=
  digitsValue 0 ((unsignedPart s.toList).takeWhile Char.isDigit)

/-! ## Characterisation of the three scans -/

theorem wrapInt_of_inRange (x : Int) (hlo : minInt ≤ x) (hhi : x ≤ maxInt) : wrapInt x = x := by
  unfold wrapInt
  unfold minInt maxInt intSize at *
  norm_num at *
  omega

theorem goAdd_one_of_lt (x : Int) (hlo : minInt ≤ x) (hhi : x < maxInt) : goAdd x 1 = x + 1 := by
  unfold goAdd
  apply wrapInt_of_inRange
  · omega
  · omega

theorem present_iff_mem_ids (id : Int) (s : Store) : Present id s ↔ id ∈ s.map User.ID := by
  simp [Present]

theorem not_present_iff (id : Int) (s : Store) : ¬ Present id s ↔ ∀ x ∈ s, x.ID ≠ id := by
  simp [Present]

/-- A store that holds the id splits at the first record carrying it. -/
theorem exists_first_match (id : Int) :
    ∀ s : Store, Present id s →
      ∃ a u b, s = a ++ u :: b ∧ (∀ x ∈ a, x.ID ≠ id) ∧ u.ID = id := by
  intro s
  induction s with
  | nil => intro h; simp [Present] at h
  | cons x xs ih =>
    intro h
    by_cases hx : x.ID = id
    · exact ⟨[], x, xs, rfl, by simp, hx⟩
    · have hxs : Present id xs := by
        obtain ⟨u, hu, hid⟩ := h
        rcases List.mem_cons.mp hu with rfl | hmem
        · exact absurd hid hx
        · exact ⟨u, hmem, hid⟩
      obtain ⟨a, u, b, hs, ha, hu⟩ := ih hxs
      refine ⟨x :: a, u, b, by simp [hs], ?_, hu⟩
      intro y hy
      rcases List.mem_cons.mp hy with rfl | hmem
      · exact hx
      · exact ha y hmem

theorem getUserLoop_absent (id : Int) (s : Store) :
    ∀ l : List User, (∀ x ∈ l, x.ID ≠ id) → getUserLoop id s l = (notFound, s) := by
  intro l
  induction l with
  | nil => intro _; rfl
  | cons x xs ih =>
    intro h
    have hx : x.ID ≠ id := h x (List.mem_cons_self _ _)
    simp only [getUserLoop, if_neg hx]
    exact ih (fun y hy => h y (List.mem_cons_of_mem _ hy))

theorem getUserLoop_first (id : Int) (s : Store) (u : User) (b : List User) (hu : u.ID = id) :
    ∀ a : List User, (∀ x ∈ a, x.ID ≠ id) →
      getUserLoop id s (a ++ u :: b) = ({ status := StatusOK, body := .user u }, s) := by
  intro a
  induction a with
  | nil => intro _; simp [getUserLoop, hu]
  | cons x xs ih =>
    intro h
    have hx : x.ID ≠ id := h x (List.mem_cons_self _ _)
    simp only [List.cons_append, getUserLoop, if_neg hx]
    exact ih (fun y hy => h y (List.mem_cons_of_mem _ hy))

theorem updateUserLoop_absent (id : Int) (body : Body) (s : Store) :
    ∀ (l : List User) (i : Nat), (∀ x ∈ l, x.ID ≠ id) →
      updateUserLoop id body s i l = (notFound, s) := by
  intro l
  induction l with
  | nil => intro _ _; rfl
  | cons x xs ih =>
    intro i h
    have hx : x.ID ≠ id := h x (List.mem_cons_self _ _)
    simp only [updateUserLoop, if_neg hx]
    exact ih (i + 1) (fun y hy => h y (List.mem_cons_of_mem _ hy))

theorem updateUserLoop_first (id : Int) (body : Body) (s : Store) (u : User) (b : List User)
    (hu : u.ID = id) :
    ∀ (a : List User) (i : Nat), (∀ x ∈ a, x.ID ≠ id) →
      updateUserLoop id body s i (a ++ u :: b) =
        (match (bindJSON body u).2 with
          | some err => { status := StatusBadRequest, body := .error err }
          | none => { status := StatusOK, body := .user (bindJSON body u).1 },
         s.set (i + a.length) (bindJSON body u).1) := by
  intro a
  induction a with
  | nil =>
    intro i _
    simp only [List.nil_append, updateUserLoop, if_pos hu, List.length_nil, Nat.add_zero]
    cases body <;> rfl
  | cons x xs ih =>
    intro i h
    have hx : x.ID ≠ id := h x (List.mem_cons_self _ _)
    simp only [List.cons_append, updateUserLoop, if_neg hx, List.length_cons]
    have hlen : i + (xs.length + 1) = i + 1 + xs.length := by omega
    rw [hlen]
    exact ih (i + 1) (fun y hy => h y (List.mem_cons_of_mem _ hy))

theorem deleteUserLoop_absent (id : Int) (s : Store) :
    ∀ (l : List User) (i : Nat), (∀ x ∈ l, x.ID ≠ id) →
      deleteUserLoop id s i l = (notFound, s) := by
  intro l
  induction l with
  | nil => intro _ _; rfl
  | cons x xs ih =>
    intro i h
    have hx : x.ID ≠ id := h x (List.mem_cons_self _ _)
    simp only [deleteUserLoop, if_neg hx]
    exact ih (i + 1) (fun y hy => h y (List.mem_cons_of_mem _ hy))

theorem deleteUserLoop_first (id : Int) (s : Store) (u : User) (b : List User) (hu : u.ID = id) :
    ∀ (a : List User) (i : Nat), (∀ x ∈ a, x.ID ≠ id) →
      deleteUserLoop id s i (a ++ u :: b) =
        ({ status := StatusNoContent, body := .message "user deleted" },
          s.take (i + a.length) ++ s.drop (i + a.length + 1)) := by
  intro a
  induction a with
  | nil =>
    intro i _
    simp [deleteUserLoop, hu]
  | cons x xs ih =>
    intro i h
    have hx : x.ID ≠ id := h x (List.mem_cons_self _ _)
    simp only [List.cons_append, deleteUserLoop, if_neg hx, List.length_cons]
    have hlen : i + (xs.length + 1) = i + 1 + xs.length := by omega
    rw [hlen]
    exact ih (i + 1) (fun y hy => h y (List.mem_cons_of_mem _ hy))

/-- Handler getUserById on a store split at the first match. -/
theorem getUserById_split (id : Int) (a : List User) (u : User) (b : List User)
    (ha : ∀ x ∈ a, x.ID ≠ id) (hu : u.ID = id) :
    getUserById id (a ++ u :: b) = ({ status := StatusOK, body := .user u }, a ++ u :: b) :=
  getUserLoop_first id _ u b hu a ha

theorem getUserById_absent (id : Int) (s : Store) (h : ¬ Present id s) :
    getUserById id s = (notFound, s) :=
  getUserLoop_absent id s s ((not_present_iff id s).mp h)

/-- Handler updateUserById on a store split at the first match. -/
theorem updateUserById_split (id : Int) (body : Body) (a : List User) (u : User) (b : List User)
    (ha : ∀ x ∈ a, x.ID ≠ id) (hu : u.ID = id) :
    updateUserById id body (a ++ u :: b) =
      (match (bindJSON body u).2 with
        | some err => { status := StatusBadRequest, body := .error err }
        | none => { status := StatusOK, body := .user (bindJSON body u).1 },
       a ++ (bindJSON body u).1 :: b) := by
  unfold updateUserById
  rw [updateUserLoop_first id body _ u b hu a 0 ha]
  simp

theorem updateUserById_absent (id : Int) (body : Body) (s : Store) (h : ¬ Present id s) :
    updateUserById id body s = (notFound, s) :=
  updateUserLoop_absent id body s s 0 ((not_present_iff id s).mp h)

/-- Handler deleteUserById on a store split at the first match. -/
theorem deleteUserById_split (id : Int) (a : List User) (u : User) (b : List User)
    (ha : ∀ x ∈ a, x.ID ≠ id) (hu : u.ID = id) :
    deleteUserById id (a ++ u :: b) =
      ({ status := StatusNoContent, body := .message "user deleted" }, a ++ b) := by
  unfold deleteUserById
  rw [deleteUserLoop_first id _ u b hu a 0 ha]
  simp

theorem deleteUserById_absent (id : Int) (s : Store) (h : ¬ Present id s) :
    deleteUserById id s = (notFound, s) :=
  deleteUserLoop_absent id s s 0 ((not_present_iff id s).mp h)

/-- Handler createUser on a store whose last record is last. -/
theorem createUser_decoded_concat (p : Fields) (init : List User) (last : User) :
    createUser (.decoded p) (init ++ [last]) =
      some ({ status := StatusCreated,
              body := .user { ID := goAdd last.ID 1, Name := p.Name.getD "", Email := p.Email.getD "" } },
            (init ++ [last]) ++
              [{ ID := goAdd last.ID 1, Name := p.Name.getD "", Email := p.Email.getD "" }]) := by
  have hlast : (init ++ [last])[(init ++ [last]).length - 1]? = some last := by
    rw [← List.getLast?_eq_getElem?]
    exact List.getLast?_concat init
  simp only [createUser, bindJSON, hlast, Fields.store, zeroUser]

theorem createUser_failed (msg : String) (p : Fields) (s : Store) :
    createUser (.failed msg p) s =
      some ({ status := StatusBadRequest, body := .error msg }, s) := by
  simp only [createUser, bindJSON]

theorem createUser_nil (p : Fields) : createUser (.decoded p) [] = none := by
  simp [createUser, bindJSON]

/-! ## Lemmas on sequences of requests -/

theorem getUserById_present (id : Int) (s : Store) (h : Present id s) :
    ∃ g, getUserById id s = ({ status := StatusOK, body := .user g }, s) ∧ g.ID = id ∧ g ∈ s := by
  obtain ⟨a, u, b, hs, ha, hu⟩ := exists_first_match id s h
  refine ⟨u, ?_, hu, by rw [hs]; simp⟩
  rw [hs]; exact getUserById_split id a u b ha hu

theorem getUserById_notFound_iff (id : Int) (s : Store) :
    (getUserById id s).1 = notFound ↔ ¬ Present id s := by
  by_cases h : Present id s
  · obtain ⟨g, hg, -, -⟩ := getUserById_present id s h
    rw [hg]; simp [notFound, h, StatusOK, StatusNotFound]
  · rw [getUserById_absent id s h]; simp [h]

/-- Occurrences of an id in a store split at the first match. -/
theorem count_ids_split (id : Int) (a : List User) (u : User) (b : List User)
    (ha : ∀ x ∈ a, x.ID ≠ id) (hu : u.ID = id) :
    ((a ++ u :: b).map User.ID).count id = 1 + (b.map User.ID).count id := by
  have h0 : (a.map User.ID).count id = 0 := by
    rw [List.count_eq_zero]
    intro hmem
    obtain ⟨x, hx, hxid⟩ := List.mem_map.mp hmem
    exact ha x hx hxid
  simp only [List.map_append, List.map_cons, List.count_append, h0, hu, List.count_cons_self]
  omega

theorem count_ids_eq_zero_iff (id : Int) (l : List User) :
    (l.map User.ID).count id = 0 ↔ ∀ x ∈ l, x.ID ≠ id := by
  rw [List.count_eq_zero]
  simp

theorem deleteUserById_sublist (id : Int) (s : Store) : (deleteUserById id s).2.Sublist s := by
  by_cases h : Present id s
  · obtain ⟨a, u, b, hs, ha, hu⟩ := exists_first_match id s h
    rw [hs, deleteUserById_split id a u b ha hu]
    exact List.Sublist.append (List.Sublist.refl a) (List.sublist_cons_self u b)
  · rw [deleteUserById_absent id s h]

theorem updateUserById_ids_of_keeps (id : Int) (body : Body) (s : Store)
    (hb : body.fields.ID = none ∨ body.fields.ID = some id) :
    (updateUserById id body s).2.map User.ID = s.map User.ID := by
  by_cases h : Present id s
  · obtain ⟨a, u, b, hs, ha, hu⟩ := exists_first_match id s h
    rw [hs, updateUserById_split id body a u b ha hu]
    have hv : (bindJSON body u).1.ID = u.ID := by
      cases body with
      | decoded p =>
        rcases hb with hb | hb
        · simp only [Body.fields] at hb; simp [bindJSON, Fields.store, hb]
        · simp only [Body.fields] at hb; simp [bindJSON, Fields.store, hb, hu]
      | failed msg p =>
        rcases hb with hb | hb
        · simp only [Body.fields] at hb; simp [bindJSON, Fields.store, hb]
        · simp only [Body.fields] at hb; simp [bindJSON, Fields.store, hb, hu]
    simp [hv]
  · rw [updateUserById_absent id body s h]

theorem IdsAscending_users : IdsAscending users := by
  constructor
  · simp [users]
  · intro u hu
    simp only [users, List.mem_cons, List.mem_singleton, List.not_mem_nil, or_false] at hu
    rcases hu with rfl | rfl <;> simp [minInt, intSize]

theorem IdsAscending_delete (id : Int) (s : Store) (h : IdsAscending s) :
    IdsAscending (deleteUserById id s).2 := by
  have hsub := deleteUserById_sublist id s
  exact ⟨List.Pairwise.sublist (hsub.map User.ID) h.1, fun u hu => h.2 u (hsub.subset hu)⟩

theorem IdsAscending_update (id : Int) (body : Body) (s : Store)
    (hb : body.fields.ID = none ∨ body.fields.ID = some id) (h : IdsAscending s) :
    IdsAscending (updateUserById id body s).2 := by
  have hids := updateUserById_ids_of_keeps id body s hb
  refine ⟨by rw [hids]; exact h.1, ?_⟩
  intro u hu
  have hmem : u.ID ∈ (updateUserById id body s).2.map User.ID := List.mem_map_of_mem _ hu
  rw [hids] at hmem
  obtain ⟨x, hx, hxid⟩ := List.mem_map.mp hmem
  rw [← hxid]
  exact h.2 x hx

theorem IdsAscending_create (body : Body) (s : Store)
    (hlt : ∀ last, s.getLast? = some last → last.ID < maxInt) (h : IdsAscending s) :
    IdsAscending ((Op.create body).run s) := by
  cases body with
  | failed msg p => simp only [Op.run, createUser_failed]; exact h
  | decoded p =>
    rcases List.eq_nil_or_concat s with hs | ⟨init, last, hs⟩
    · subst hs
      simp only [Op.run, createUser_nil]; exact h
    · rw [List.concat_eq_append] at hs
      subst hs
      have hlast : last.ID < maxInt := hlt last (List.getLast?_concat init)
      have hlo : minInt ≤ last.ID := h.2 last (by simp)
      have hid : goAdd last.ID 1 = last.ID + 1 := goAdd_one_of_lt last.ID hlo hlast
      simp only [Op.run, createUser_decoded_concat, hid]
      obtain ⟨hp, hr⟩ := h
      constructor
      · rw [List.map_append, List.pairwise_append]
        refine ⟨hp, by simp, ?_⟩
        intro x hx y hy
        simp only [List.map_cons, List.map_nil, List.mem_singleton] at hy
        subst hy
        rw [List.map_append, List.pairwise_append] at hp
        simp only [List.map_append, List.map_cons, List.map_nil, List.mem_append,
          List.mem_singleton] at hx
        rcases hx with hx | hx
        · have := hp.2.2 x hx last.ID (by simp)
          omega
        · omega
      · intro u hu
        rcases List.mem_append.mp hu with hu | hu
        · exact hr u hu
        · simp only [List.mem_singleton] at hu
          subst hu
          show minInt ≤ last.ID + 1
          omega

theorem IdsAscending_of_reachableKeepingIds (s : Store) (h : ReachableKeepingIds s) :
    IdsAscending s := by
  induction h with
  | seed => exact IdsAscending_users
  | step op hr hk ih =>
    cases op with
    | create body => exact IdsAscending_create body _ hk ih
    | update id body => exact IdsAscending_update id body _ hk ih
    | delete id => exact IdsAscending_delete id _ ih

/-! ## The claims -/

/-- C1 (as stated, refuted): the store reached from the seed by one update of
record 1 with a body that carries id 2 holds the id 2 twice. -/
theorem reachable_duplicate_id :
    Reachable ((Op.update 1 (.decoded { ID := some 2, Name := none, Email := none })).run users) ∧
    (Op.update 1 (.decoded { ID := some 2, Name := none, Email := none })).run users =
      [ { ID := 2, Name := "John Doe", Email := "john@example.com" },
        { ID := 2, Name := "Jane Doe", Email := "jane@example.com" } ] ∧
    ¬ (((Op.update 1 (.decoded { ID := some 2, Name := none, Email := none })).run users).map
        User.ID).Nodup ∧
    ¬ ∀ s : Store, Reachable s → (s.map User.ID).Nodup := by
  have hr : Reachable
      ((Op.update 1 (.decoded { ID := some 2, Name := none, Email := none })).run users) :=
    Reachable.step _ Reachable.seed
  have hdup : ¬ (((Op.update 1 (.decoded { ID := some 2, Name := none, Email := none })).run
      users).map User.ID).Nodup := by decide
  exact ⟨hr, by decide, hdup, fun hall => hdup (hall _ hr)⟩

/-- C1 (amended): in every store reachable from the seed by create, update and
delete operations in which no update stores an id different from the id in its
path and no create runs with the last id at maxInt, the ids are pairwise
distinct (they are strictly increasing in sequence order). -/
theorem ids_nodup_of_reachableKeepingIds (s : Store) (h : ReachableKeepingIds s) :
    (s.map User.ID).Nodup ∧ (s.map User.ID).Pairwise (· < ·) := by
  have hasc := (IdsAscending_of_reachableKeepingIds s h).1
  exact ⟨List.Pairwise.imp (fun hlt => ne_of_lt hlt) hasc, hasc⟩

theorem ids_nodup_of_reachableKeepingIds_witness :
    ReachableKeepingIds
      ((Op.update 3 (.decoded { ID := some 3, Name := some "Rob", Email := none })).run
        ((Op.delete 1).run
          ((Op.create (.decoded { ID := some 1, Name := some "Bob", Email := none })).run users))) ∧
    (((Op.update 3 (.decoded { ID := some 3, Name := some "Rob", Email := none })).run
        ((Op.delete 1).run
          ((Op.create (.decoded { ID := some 1, Name := some "Bob", Email := none })).run
            users))).map User.ID).Nodup ∧
    (((Op.update 3 (.decoded { ID := some 3, Name := some "Rob", Email := none })).run
        ((Op.delete 1).run
          ((Op.create (.decoded { ID := some 1, Name := some "Bob", Email := none })).run
            users))).map User.ID).Pairwise (· < ·) :=
  have hr : ReachableKeepingIds
      ((Op.update 3 (.decoded { ID := some 3, Name := some "Rob", Email := none })).run
        ((Op.delete 1).run
          ((Op.create (.decoded { ID := some 1, Name := some "Bob", Email := none })).run
            users))) :=
    ReachableKeepingIds.step _
      (ReachableKeepingIds.step _
        (ReachableKeepingIds.step _ ReachableKeepingIds.seed
          (by
            intro last hlast
            simp only [users, List.getLast?_cons_cons, List.getLast?_singleton,
              Option.some.injEq] at hlast
            subst hlast
            simp [maxInt, intSize]))
        trivial)
      (Or.inr rfl)
  ⟨hr, ids_nodup_of_reachableKeepingIds _ hr⟩

/-- C2: on a non-empty store, createUser with a body that decodes answers 201 and
appends exactly one record at the end; the record carries the name and email of
the body and the id last.ID + 1 computed in Go int (equal to the mathematical
last.ID + 1 whenever the last id is an int below maxInt), whatever id the body
carries; the response returns that record and the old records stay in place. -/
theorem createUser_appends (s : Store) (p : Fields) (hs : s ≠ []) :
    ∃ last u,
      s.getLast? = some last ∧
      u = { ID := goAdd last.ID 1, Name := p.Name.getD "", Email := p.Email.getD "" } ∧
      createUser (.decoded p) s = some ({ status := StatusCreated, body := .user u }, s ++ [u]) ∧
      StatusCreated = 201 ∧
      (minInt ≤ last.ID → last.ID < maxInt → u.ID = last.ID + 1) := by
  rcases List.eq_nil_or_concat s with h | ⟨init, last, h⟩
  · exact absurd h hs
  · rw [List.concat_eq_append] at h
    subst h
    refine ⟨last, _, List.getLast?_concat init, rfl, createUser_decoded_concat p init last, rfl, ?_⟩
    intro hlo hhi
    exact goAdd_one_of_lt last.ID hlo hhi

theorem createUser_appends_witness :
    users ≠ [] ∧
    ∃ last u,
      users.getLast? = some last ∧
      u = { ID := goAdd last.ID 1, Name := (some "Bob").getD "", Email := (some "b@x").getD "" } ∧
      createUser (.decoded { ID := some 7, Name := some "Bob", Email := some "b@x" }) users =
        some ({ status := StatusCreated, body := .user u }, users ++ [u]) ∧
      StatusCreated = 201 ∧
      (minInt ≤ last.ID → last.ID < maxInt → u.ID = last.ID + 1) :=
  ⟨by decide,
    createUser_appends users { ID := some 7, Name := some "Bob", Email := some "b@x" } (by decide)⟩

/-- C3: getUserById answers 200 with the first record in sequence order that
carries the id when there is one; it answers NotFound (404) exactly when no
record carries the id; a 200 answer always carries a record with the requested
id. The store is left as it was. -/
theorem getUserById_first_match (s : Store) (id : Int) :
    (Present id s →
      ∃ a u b, s = a ++ u :: b ∧ (∀ x ∈ a, x.ID ≠ id) ∧ u.ID = id ∧
        getUserById id s = ({ status := StatusOK, body := .user u }, s)) ∧
    ((getUserById id s).1 = notFound ↔ ¬ Present id s) ∧
    ((getUserById id s).1.status = 404 ↔ ¬ Present id s) ∧
    (∀ u, (getUserById id s).1 = { status := 200, body := .user u } → u.ID = id ∧ u ∈ s) := by
  by_cases h : Present id s
  · obtain ⟨a, u, b, hs, ha, hu⟩ := exists_first_match id s h
    have hget : getUserById id s = ({ status := StatusOK, body := .user u }, s) := by
      rw [hs]; exact getUserById_split id a u b ha hu
    refine ⟨fun _ => ⟨a, u, b, hs, ha, hu, hget⟩, ?_, ?_, ?_⟩
    · rw [hget]; simp [notFound, h, StatusOK, StatusNotFound]
    · rw [hget]; simp [h, StatusOK]
    · intro v hv
      rw [hget] at hv
      simp only [Response.mk.injEq, Payload.user.injEq] at hv
      obtain ⟨-, rfl⟩ := hv
      exact ⟨hu, by rw [hs]; simp⟩
  · have hget := getUserById_absent id s h
    refine ⟨fun hp => absurd hp h, ?_, ?_, ?_⟩
    · rw [hget]; simp [h]
    · rw [hget]; simp [h, notFound, StatusNotFound]
    · intro v hv
      rw [hget] at hv
      simp [notFound] at hv

theorem getUserById_first_match_witness :
    Present 2 users ∧
    ∃ a u b, users = a ++ u :: b ∧ (∀ x ∈ a, x.ID ≠ 2) ∧ u.ID = 2 ∧
      getUserById 2 users = ({ status := StatusOK, body := .user u }, users) :=
  ⟨by decide, (getUserById_first_match users 2).1 (by decide)⟩

/-- C4: updateUserById with a present id and a body that decodes answers 200 and
rewrites only the first record that carries the id, in place: each member the
body supplies (id included) overwrites the field, each member it omits leaves
the field; the records before and after, the position and the length are
unchanged; the response carries the record now stored at that position. -/
theorem updateUserById_present (s : Store) (id : Int) (p : Fields) (h : Present id s) :
    ∃ a u b v,
      s = a ++ u :: b ∧ (∀ x ∈ a, x.ID ≠ id) ∧ u.ID = id ∧
      updateUserById id (.decoded p) s = ({ status := StatusOK, body := .user v }, a ++ v :: b) ∧
      StatusOK = 200 ∧
      (a ++ v :: b).length = s.length ∧
      (a ++ v :: b)[a.length]? = some v ∧
      (∀ n, p.ID = some n → v.ID = n) ∧ (p.ID = none → v.ID = u.ID) ∧
      (∀ n, p.Name = some n → v.Name = n) ∧ (p.Name = none → v.Name = u.Name) ∧
      (∀ e, p.Email = some e → v.Email = e) ∧ (p.Email = none → v.Email = u.Email) := by
  obtain ⟨a, u, b, hs, ha, hu⟩ := exists_first_match id s h
  refine ⟨a, u, b, p.store u, hs, ha, hu, ?_, rfl, ?_, ?_, ?_, ?_, ?_, ?_, ?_, ?_⟩
  · rw [hs, updateUserById_split id (.decoded p) a u b ha hu]
    rfl
  · rw [hs]; simp
  · rw [List.getElem?_append_right (Nat.le_refl _)]; simp
  · intro n hn; simp [Fields.store, hn]
  · intro hn; simp [Fields.store, hn]
  · intro n hn; simp [Fields.store, hn]
  · intro hn; simp [Fields.store, hn]
  · intro n hn; simp [Fields.store, hn]
  · intro hn; simp [Fields.store, hn]

theorem updateUserById_present_witness :
    Present 1 users ∧
    ∃ a u b v,
      users = a ++ u :: b ∧ (∀ x ∈ a, x.ID ≠ 1) ∧ u.ID = 1 ∧
      updateUserById 1 (.decoded { ID := some 5, Name := none, Email := some "j@x" }) users =
        ({ status := StatusOK, body := .user v }, a ++ v :: b) ∧
      StatusOK = 200 ∧
      (a ++ v :: b).length = users.length ∧
      (a ++ v :: b)[a.length]? = some v ∧
      (∀ n, (some 5 : Option Int) = some n → v.ID = n) ∧
      ((some 5 : Option Int) = none → v.ID = u.ID) ∧
      (∀ n, (none : Option String) = some n → v.Name = n) ∧
      ((none : Option String) = none → v.Name = u.Name) ∧
      (∀ e, (some "j@x" : Option String) = some e → v.Email = e) ∧
      ((some "j@x" : Option String) = none → v.Email = u.Email) :=
  ⟨by decide,
    updateUserById_present users 1 { ID := some 5, Name := none, Email := some "j@x" } (by decide)⟩

/-- C5: deleteUserById with a present id answers 204 and removes exactly the first
record in sequence order that carries the id: the store before is a ++ u :: b
with u that record, the store after is a ++ b, one record shorter, the other
records with their values and in their order. -/
theorem deleteUserById_present (s : Store) (id : Int) (h : Present id s) :
    ∃ a u b,
      s = a ++ u :: b ∧ (∀ x ∈ a, x.ID ≠ id) ∧ u.ID = id ∧
      deleteUserById id s =
        ({ status := StatusNoContent, body := .message "user deleted" }, a ++ b) ∧
      StatusNoContent = 204 ∧
      (a ++ b).length + 1 = s.length ∧
      (a ++ b).Sublist s := by
  obtain ⟨a, u, b, hs, ha, hu⟩ := exists_first_match id s h
  refine ⟨a, u, b, hs, ha, hu, ?_, rfl, ?_, ?_⟩
  · rw [hs]; exact deleteUserById_split id a u b ha hu
  · rw [hs]; simp; omega
  · rw [hs]
    exact List.Sublist.append (List.Sublist.refl a) (List.sublist_cons_self u b)

theorem deleteUserById_present_witness :
    Present 1 users ∧
    ∃ a u b,
      users = a ++ u :: b ∧ (∀ x ∈ a, x.ID ≠ 1) ∧ u.ID = 1 ∧
      deleteUserById 1 users =
        ({ status := StatusNoContent, body := .message "user deleted" }, a ++ b) ∧
      StatusNoContent = 204 ∧
      (a ++ b).length + 1 = users.length ∧
      (a ++ b).Sublist users :=
  ⟨by decide, deleteUserById_present users 1 (by decide)⟩

/-- C6: for an id that no record carries, getUserById, updateUserById (with any
body, decoding or not) and deleteUserById each answer NotFound (404) and leave
the store exactly as it was. -/
theorem notFound_leaves_store (s : Store) (id : Int) (body : Body) (h : ¬ Present id s) :
    getUserById id s = (notFound, s) ∧
    updateUserById id body s = (notFound, s) ∧
    deleteUserById id s = (notFound, s) ∧
    notFound.status = 404 :=
  ⟨getUserById_absent id s h, updateUserById_absent id body s h,
    deleteUserById_absent id s h, rfl⟩

theorem notFound_leaves_store_witness :
    ¬ Present 9 users ∧
    getUserById 9 users = (notFound, users) ∧
    updateUserById 9 (.decoded { ID := some 1, Name := some "N", Email := none }) users =
      (notFound, users) ∧
    deleteUserById 9 users = (notFound, users) ∧
    notFound.status = 404 :=
  ⟨by decide,
    notFound_leaves_store users 9 (.decoded { ID := some 1, Name := some "N", Email := none })
      (by decide)⟩

/-- C7: with a body that fails to bind, updateUserById answers 400 with the
decoder message (and not 404) when the id is present, and answers NotFound 404
(and not 400) with the store untouched when the id is absent: the body is bound
only once a matching record has been found. -/
theorem updateUserById_failed_body (s : Store) (id : Int) (msg : String) (p : Fields) :
    (Present id s →
      (updateUserById id (.failed msg p) s).1 =
          { status := StatusBadRequest, body := .error msg } ∧
        (updateUserById id (.failed msg p) s).1.status = 400 ∧
        (updateUserById id (.failed msg p) s).1 ≠ notFound) ∧
    (¬ Present id s →
      updateUserById id (.failed msg p) s = (notFound, s) ∧
        (updateUserById id (.failed msg p) s).1.status = 404) := by
  constructor
  · intro h
    obtain ⟨a, u, b, hs, ha, hu⟩ := exists_first_match id s h
    have hupd : (updateUserById id (.failed msg p) s).1 =
        { status := StatusBadRequest, body := .error msg } := by
      rw [hs, updateUserById_split id (.failed msg p) a u b ha hu]
      rfl
    refine ⟨hupd, ?_, ?_⟩
    · rw [hupd]; rfl
    · rw [hupd]; simp [notFound, StatusBadRequest, StatusNotFound]
  · intro h
    have hupd := updateUserById_absent id (.failed msg p) s h
    refine ⟨hupd, ?_⟩
    rw [hupd]; rfl

theorem updateUserById_failed_body_witness :
    Present 2 users ∧
    (updateUserById 2 (.failed "invalid character" { ID := none, Name := none, Email := none })
        users).1.status = 400 ∧
    ¬ Present 9 users ∧
    (updateUserById 9 (.failed "invalid character" { ID := none, Name := none, Email := none })
        users).1.status = 404 :=
  ⟨by decide,
    ((updateUserById_failed_body users 2 "invalid character"
      { ID := none, Name := none, Email := none }).1 (by decide)).2.1,
    by decide,
    ((updateUserById_failed_body users 9 "invalid character"
      { ID := none, Name := none, Email := none }).2 (by decide)).2⟩

/-- C8 (as stated, refuted): from the seed, update of record 1 with a body that
carries id 3 gives a store whose last id is 2; createUser then assigns id 3 to
the new record X, and getUserById 3 on the resulting store answers with the
older record John Doe, whose name and email are not those of the body. -/
theorem create_then_get_shadowed :
    Reachable ((Op.update 1 (.decoded { ID := some 3, Name := none, Email := none })).run users) ∧
    (Op.update 1 (.decoded { ID := some 3, Name := none, Email := none })).run users =
      [ { ID := 3, Name := "John Doe", Email := "john@example.com" },
        { ID := 2, Name := "Jane Doe", Email := "jane@example.com" } ] ∧
    createUser (.decoded { ID := none, Name := some "X", Email := some "x@x" })
        [ { ID := 3, Name := "John Doe", Email := "john@example.com" },
          { ID := 2, Name := "Jane Doe", Email := "jane@example.com" } ] =
      some ({ status := 201, body := .user { ID := 3, Name := "X", Email := "x@x" } },
        [ { ID := 3, Name := "John Doe", Email := "john@example.com" },
          { ID := 2, Name := "Jane Doe", Email := "jane@example.com" },
          { ID := 3, Name := "X", Email := "x@x" } ]) ∧
    (getUserById 3
        [ { ID := 3, Name := "John Doe", Email := "john@example.com" },
          { ID := 2, Name := "Jane Doe", Email := "jane@example.com" },
          { ID := 3, Name := "X", Email := "x@x" } ]).1 =
      { status := 200, body := .user { ID := 3, Name := "John Doe", Email := "john@example.com" } } ∧
    ¬ ∃ g : User,
        (getUserById 3
          [ { ID := 3, Name := "John Doe", Email := "john@example.com" },
            { ID := 2, Name := "Jane Doe", Email := "jane@example.com" },
            { ID := 3, Name := "X", Email := "x@x" } ]).1 = { status := 200, body := .user g } ∧
        g.Name = "X" ∧ g.Email = "x@x" := by
  refine ⟨Reachable.step _ Reachable.seed, by decide, by decide, by decide, ?_⟩
  rintro ⟨g, hg, hname, -⟩
  have hget : (getUserById 3
      [ { ID := 3, Name := "John Doe", Email := "john@example.com" },
        { ID := 2, Name := "Jane Doe", Email := "jane@example.com" },
        { ID := 3, Name := "X", Email := "x@x" } ]).1 =
      { status := 200, body := .user { ID := 3, Name := "John Doe", Email := "john@example.com" } } := by
    decide
  rw [hget] at hg
  simp only [Response.mk.injEq, Payload.user.injEq, true_and] at hg
  subst hg
  revert hname
  decide

/-- C8 (amended): on a non-empty store, createUser with a body that decodes
returns a record r with the name and email of the body; getUserById r.ID on the
resulting store answers 200 with a record whose id is r.ID; and when no record
of the store before the create carried r.ID, that record is r itself. -/
theorem create_then_get (s : Store) (p : Fields) (hs : s ≠ []) :
    ∃ r t,
      createUser (.decoded p) s = some ({ status := StatusCreated, body := .user r }, t) ∧
      r.Name = p.Name.getD "" ∧ r.Email = p.Email.getD "" ∧
      (∃ g, getUserById r.ID t = ({ status := StatusOK, body := .user g }, t) ∧ g.ID = r.ID) ∧
      (¬ Present r.ID s →
        getUserById r.ID t = ({ status := StatusOK, body := .user r }, t)) := by
  rcases List.eq_nil_or_concat s with h | ⟨init, last, h⟩
  · exact absurd h hs
  · rw [List.concat_eq_append] at h
    subst h
    refine ⟨_, _, createUser_decoded_concat p init last, rfl, rfl, ?_, ?_⟩
    · have hp : Present (goAdd last.ID 1)
          ((init ++ [last]) ++
            [{ ID := goAdd last.ID 1, Name := p.Name.getD "", Email := p.Email.getD "" }]) :=
        ⟨{ ID := goAdd last.ID 1, Name := p.Name.getD "", Email := p.Email.getD "" },
          by simp, rfl⟩
      obtain ⟨g, hg, hid, -⟩ := getUserById_present _ _ hp
      exact ⟨g, hg, hid⟩
    · intro habs
      exact getUserById_split _ (init ++ [last]) _ [] ((not_present_iff _ _).mp habs) rfl

theorem create_then_get_witness :
    users ≠ [] ∧
    ∃ r t,
      createUser (.decoded { ID := none, Name := some "X", Email := some "x@x" }) users =
        some ({ status := StatusCreated, body := .user r }, t) ∧
      r.Name = (some "X").getD "" ∧ r.Email = (some "x@x").getD "" ∧
      (∃ g, getUserById r.ID t = ({ status := StatusOK, body := .user g }, t) ∧ g.ID = r.ID) ∧
      (¬ Present r.ID users →
        getUserById r.ID t = ({ status := StatusOK, body := .user r }, t)) :=
  ⟨by decide,
    create_then_get users { ID := none, Name := some "X", Email := some "x@x" } (by decide)⟩

/-- C9 (as stated, refuted): from the seed, update of record 1 with a body that
carries id 2 gives a store in which id 2 is present; deleteUserById 2 answers
204 and removes the first of the two records, and getUserById 2 on the resulting
store answers 200 with Jane Doe, not NotFound. -/
theorem delete_then_get_found :
    Reachable ((Op.update 1 (.decoded { ID := some 2, Name := none, Email := none })).run users) ∧
    Present 2 ((Op.update 1 (.decoded { ID := some 2, Name := none, Email := none })).run users) ∧
    deleteUserById 2
        ((Op.update 1 (.decoded { ID := some 2, Name := none, Email := none })).run users) =
      ({ status := 204, body := .message "user deleted" },
        [ { ID := 2, Name := "Jane Doe", Email := "jane@example.com" } ]) ∧
    (getUserById 2 [ { ID := 2, Name := "Jane Doe", Email := "jane@example.com" } ]).1 =
      { status := 200, body := .user { ID := 2, Name := "Jane Doe", Email := "jane@example.com" } } ∧
    (getUserById 2 [ { ID := 2, Name := "Jane Doe", Email := "jane@example.com" } ]).1 ≠
      notFound :=
  ⟨Reachable.step _ Reachable.seed, by decide, by decide, by decide, by decide⟩

/-- C9 (amended): for an id present in the store, deleteUserById answers 204, and
getUserById with the same id on the resulting store answers NotFound exactly
when one record only of the store before carried the id. -/
theorem delete_then_get (s : Store) (id : Int) (h : Present id s) :
    (deleteUserById id s).1.status = 204 ∧
    ((getUserById id (deleteUserById id s).2).1 = notFound ↔ (s.map User.ID).count id = 1) ∧
    ((s.map User.ID).count id = 1 →
      getUserById id (deleteUserById id s).2 = (notFound, (deleteUserById id s).2)) := by
  obtain ⟨a, u, b, hs, ha, hu⟩ := exists_first_match id s h
  have hdel := deleteUserById_split id a u b ha hu
  have hcount := count_ids_split id a u b ha hu
  have hiff : ¬ Present id (a ++ b) ↔ ((a ++ u :: b).map User.ID).count id = 1 := by
    rw [hcount, not_present_iff]
    constructor
    · intro hall
      have hb : (b.map User.ID).count id = 0 :=
        (count_ids_eq_zero_iff id b).mpr (fun x hx => hall x (List.mem_append_right a hx))
      omega
    · intro hone x hx
      have hb : (b.map User.ID).count id = 0 := by omega
      rcases List.mem_append.mp hx with hx | hx
      · exact ha x hx
      · exact (count_ids_eq_zero_iff id b).mp hb x hx
  subst hs
  rw [hdel]
  refine ⟨rfl, ?_, ?_⟩
  · rw [getUserById_notFound_iff]; exact hiff
  · intro hone
    exact getUserById_absent id _ (hiff.mpr hone)

theorem delete_then_get_witness :
    Present 1 users ∧
    (deleteUserById 1 users).1.status = 204 ∧
    ((getUserById 1 (deleteUserById 1 users).2).1 = notFound ↔
      (users.map User.ID).count 1 = 1) ∧
    ((users.map User.ID).count 1 = 1 →
      getUserById 1 (deleteUserById 1 users).2 = (notFound, (deleteUserById 1 users).2)) :=
  ⟨by decide, delete_then_get users 1 (by decide)⟩

/-- C10 (as stated, refuted): from the seed, update of record 2 with a body that
carries id 1 gives a store with id 1 twice; updateUserById 1 with a body that
carries id 5 answers 200 and rewrites the first of them, and getUserById 1 on
the resulting store answers 200 with Jane Doe, not NotFound. -/
theorem update_then_get_old_id_found :
    Reachable ((Op.update 2 (.decoded { ID := some 1, Name := none, Email := none })).run users) ∧
    (Op.update 2 (.decoded { ID := some 1, Name := none, Email := none })).run users =
      [ { ID := 1, Name := "John Doe", Email := "john@example.com" },
        { ID := 1, Name := "Jane Doe", Email := "jane@example.com" } ] ∧
    updateUserById 1 (.decoded { ID := some 5, Name := none, Email := none })
        [ { ID := 1, Name := "John Doe", Email := "john@example.com" },
          { ID := 1, Name := "Jane Doe", Email := "jane@example.com" } ] =
      ({ status := 200, body := .user { ID := 5, Name := "John Doe", Email := "john@example.com" } },
        [ { ID := 5, Name := "John Doe", Email := "john@example.com" },
          { ID := 1, Name := "Jane Doe", Email := "jane@example.com" } ]) ∧
    (getUserById 1
        [ { ID := 5, Name := "John Doe", Email := "john@example.com" },
          { ID := 1, Name := "Jane Doe", Email := "jane@example.com" } ]).1 =
      { status := 200, body := .user { ID := 1, Name := "Jane Doe", Email := "jane@example.com" } } ∧
    (getUserById 1
        [ { ID := 5, Name := "John Doe", Email := "john@example.com" },
          { ID := 1, Name := "Jane Doe", Email := "jane@example.com" } ]).1 ≠ notFound :=
  ⟨Reachable.step _ Reachable.seed, by decide, by decide, by decide, by decide⟩

/-- C10 (amended): for an id present in the store and a body that decodes and
carries an id n different from it, updateUserById answers 200; getUserById n on
the resulting store answers 200 with a record whose id is n; and getUserById
with the old id answers NotFound exactly when one record only of the store
before carried the old id. -/
theorem update_then_get (s : Store) (id n : Int) (p : Fields)
    (h : Present id s) (hp : p.ID = some n) (hn : n ≠ id) :
    (updateUserById id (.decoded p) s).1.status = 200 ∧
    (∃ g, getUserById n (updateUserById id (.decoded p) s).2 =
        ({ status := StatusOK, body := .user g }, (updateUserById id (.decoded p) s).2) ∧
      g.ID = n) ∧
    ((getUserById id (updateUserById id (.decoded p) s).2).1 = notFound ↔
      (s.map User.ID).count id = 1) ∧
    ((s.map User.ID).count id = 1 →
      getUserById id (updateUserById id (.decoded p) s).2 =
        (notFound, (updateUserById id (.decoded p) s).2)) := by
  obtain ⟨a, u, b, hs, ha, hu⟩ := exists_first_match id s h
  have hupd : updateUserById id (.decoded p) (a ++ u :: b) =
      ({ status := StatusOK, body := .user (p.store u) }, a ++ p.store u :: b) := by
    rw [updateUserById_split id (.decoded p) a u b ha hu]; rfl
  have hv : (p.store u).ID = n := by simp [Fields.store, hp]
  have hcount := count_ids_split id a u b ha hu
  have hiff : ¬ Present id (a ++ p.store u :: b) ↔ ((a ++ u :: b).map User.ID).count id = 1 := by
    rw [hcount, not_present_iff]
    constructor
    · intro hall
      have hb : (b.map User.ID).count id = 0 :=
        (count_ids_eq_zero_iff id b).mpr
          (fun x hx => hall x (List.mem_append_right a (List.mem_cons_of_mem _ hx)))
      omega
    · intro hone x hx
      have hb : (b.map User.ID).count id = 0 := by omega
      rcases List.mem_append.mp hx with hx | hx
      · exact ha x hx
      · rcases List.mem_cons.mp hx with rfl | hx
        · rw [hv]; exact hn
        · exact (count_ids_eq_zero_iff id b).mp hb x hx
  subst hs
  rw [hupd]
  refine ⟨rfl, ?_, ?_, ?_⟩
  · have hpn : Present n (a ++ p.store u :: b) := ⟨p.store u, by simp, hv⟩
    obtain ⟨g, hg, hid, -⟩ := getUserById_present n _ hpn
    exact ⟨g, hg, hid⟩
  · rw [getUserById_notFound_iff]; exact hiff
  · intro hone
    exact getUserById_absent id _ (hiff.mpr hone)

theorem update_then_get_witness :
    Present 1 users ∧ (some 5 : Option Int) = some 5 ∧ (5 : Int) ≠ 1 ∧
    (updateUserById 1 (.decoded { ID := some 5, Name := none, Email := none }) users).1.status =
      200 ∧
    (∃ g, getUserById 5
          (updateUserById 1 (.decoded { ID := some 5, Name := none, Email := none }) users).2 =
        ({ status := StatusOK, body := .user g },
          (updateUserById 1 (.decoded { ID := some 5, Name := none, Email := none }) users).2) ∧
      g.ID = 5) ∧
    ((getUserById 1
          (updateUserById 1 (.decoded { ID := some 5, Name := none, Email := none }) users).2).1 =
        notFound ↔
      (users.map User.ID).count 1 = 1) ∧
    ((users.map User.ID).count 1 = 1 →
      getUserById 1
          (updateUserById 1 (.decoded { ID := some 5, Name := none, Email := none }) users).2 =
        (notFound,
          (updateUserById 1 (.decoded { ID := some 5, Name := none, Email := none }) users).2)) :=
  ⟨by decide, rfl, by decide,
    update_then_get users 1 5 { ID := some 5, Name := none, Email := none } (by decide) rfl
      (by decide)⟩

/-! ## Lemmas on the length of the store -/

theorem createUser_isSome_of_ne_nil (body : Body) (s : Store) (hs : s ≠ []) :
    createUser body s ≠ none := by
  cases body with
  | failed msg p => rw [createUser_failed]; simp
  | decoded p =>
    rcases List.eq_nil_or_concat s with h | ⟨init, last, h⟩
    · exact absurd h hs
    · rw [List.concat_eq_append] at h
      subst h
      rw [createUser_decoded_concat]; simp

theorem length_le_run_create (body : Body) (s : Store) :
    s.length ≤ ((Op.create body).run s).length := by
  cases body with
  | failed msg p => simp only [Op.run, createUser_failed]; exact Nat.le_refl _
  | decoded p =>
    rcases List.eq_nil_or_concat s with h | ⟨init, last, h⟩
    · subst h; simp
    · rw [List.concat_eq_append] at h
      subst h
      simp only [Op.run, createUser_decoded_concat]
      simp

theorem updateUserById_length (id : Int) (body : Body) (s : Store) :
    (updateUserById id body s).2.length = s.length := by
  by_cases h : Present id s
  · obtain ⟨a, u, b, hs, ha, hu⟩ := exists_first_match id s h
    rw [hs, updateUserById_split id body a u b ha hu]
    simp
  · rw [updateUserById_absent id body s h]

theorem deleteUserById_length (id : Int) (s : Store) :
    s.length ≤ (deleteUserById id s).2.length + 1 := by
  by_cases h : Present id s
  · obtain ⟨a, u, b, hs, ha, hu⟩ := exists_first_match id s h
    rw [hs, deleteUserById_split id a u b ha hu]
    simp
    omega
  · rw [deleteUserById_absent id s h]
    exact Nat.le_succ _

/-! ## The claims on the empty store, the scenario and the listing -/

/-- C11: with a body that decodes, createUser stops on the runtime error (index
out of range at users[len(users)-1]) exactly on the empty store, where nothing
is appended; on a non-empty store it answers, whatever the body. -/
theorem createUser_faults_iff_empty (p : Fields) (s : Store) :
    (createUser (.decoded p) s = none ↔ s = []) ∧
    (Op.create (.decoded p)).run [] = [] ∧
    (∀ body : Body, s ≠ [] → ∃ r t, createUser body s = some (r, t)) := by
  refine ⟨⟨?_, ?_⟩, ?_, ?_⟩
  · intro hnone
    by_contra hs
    exact createUser_isSome_of_ne_nil (.decoded p) s hs hnone
  · intro hs
    subst hs
    exact createUser_nil p
  · simp only [Op.run, createUser_nil]
  · intro body hs
    have hne := createUser_isSome_of_ne_nil body s hs
    cases hc : createUser body s with
    | none => exact absurd hc hne
    | some rt => exact ⟨rt.1, rt.2, rfl⟩

theorem createUser_faults_iff_empty_witness :
    users ≠ [] ∧
    ∃ r t, createUser (.failed "EOF" { ID := none, Name := none, Email := none }) users =
      some (r, t) :=
  ⟨by decide,
    (createUser_faults_iff_empty { ID := none, Name := none, Email := none } users).2.2
      (.failed "EOF" { ID := none, Name := none, Email := none }) (by decide)⟩

/-- C12 (as stated, refuted): deleting record 1 and then record 2 from the seed
reaches the empty store, on which createUser stops on the runtime error. -/
theorem reachable_empty_store :
    Reachable ((Op.delete 2).run ((Op.delete 1).run users)) ∧
    (Op.delete 1).run users = [ { ID := 2, Name := "Jane Doe", Email := "jane@example.com" } ] ∧
    (Op.delete 2).run ((Op.delete 1).run users) = [] ∧
    createUser (.decoded { ID := none, Name := some "X", Email := some "x@x" })
      ((Op.delete 2).run ((Op.delete 1).run users)) = none ∧
    ¬ ∀ s : Store, Reachable s → s ≠ [] := by
  have hr : Reachable ((Op.delete 2).run ((Op.delete 1).run users)) :=
    Reachable.step _ (Reachable.step _ Reachable.seed)
  have he : (Op.delete 2).run ((Op.delete 1).run users) = [] := by decide
  exact ⟨hr, by decide, he, by decide, fun hall => hall _ hr he⟩

/-- C12 (amended): every store reachable from the seed by create and update
operations and by delete operations that do not remove the only record left is
non-empty, and createUser does not reach its runtime error there. -/
theorem nonempty_of_reachableKeepingOne (s : Store) (h : ReachableKeepingOne s) :
    s ≠ [] ∧ ∀ body : Body, ∃ r t, createUser body s = some (r, t) := by
  have hlen : 1 ≤ s.length := by
    induction h with
    | seed => simp [users]
    | create body hr ih => exact Nat.le_trans ih (length_le_run_create body _)
    | update id body hr ih =>
      simp only [Op.run]
      rw [updateUserById_length]; exact ih
    | @delete id t hr hk ih =>
      simp only [Op.run]
      rcases hk with h2 | habs
      · have := deleteUserById_length id t
        omega
      · rw [deleteUserById_absent id _ habs]; exact ih
  have hs : s ≠ [] := by
    intro he
    rw [he] at hlen
    simp at hlen
  refine ⟨hs, fun body => ?_⟩
  have hne := createUser_isSome_of_ne_nil body s hs
  cases hc : createUser body s with
  | none => exact absurd hc hne
  | some rt => exact ⟨rt.1, rt.2, rfl⟩

theorem nonempty_of_reachableKeepingOne_witness :
    ReachableKeepingOne ((Op.delete 9).run ((Op.delete 1).run users)) ∧
    (Op.delete 9).run ((Op.delete 1).run users) ≠ [] ∧
    ∀ body : Body, ∃ r t,
      createUser body ((Op.delete 9).run ((Op.delete 1).run users)) = some (r, t) :=
  have hr : ReachableKeepingOne ((Op.delete 9).run ((Op.delete 1).run users)) :=
    ReachableKeepingOne.delete 9
      (ReachableKeepingOne.delete 1 ReachableKeepingOne.seed (Or.inl (by decide)))
      (Or.inr (by decide))
  ⟨hr, nonempty_of_reachableKeepingOne _ hr⟩

/-- C13: the worked scenario. On the seed store createUser with Bob answers 201
with id 3; deleteUser on path id 1 then leaves Jane (2) and Bob (3); createUser
with Cara then answers 201 with id 4 and the store is Jane (2), Bob (3),
Cara (4). -/
theorem scenario_bob_cara :
    createUser (.decoded { ID := none, Name := some "Bob", Email := some "b@x" }) users =
      some ({ status := 201, body := .user { ID := 3, Name := "Bob", Email := "b@x" } },
        [ { ID := 1, Name := "John Doe", Email := "john@example.com" },
          { ID := 2, Name := "Jane Doe", Email := "jane@example.com" },
          { ID := 3, Name := "Bob", Email := "b@x" } ]) ∧
    deleteUser { param := "1", body := .failed "EOF" { ID := none, Name := none, Email := none } }
        [ { ID := 1, Name := "John Doe", Email := "john@example.com" },
          { ID := 2, Name := "Jane Doe", Email := "jane@example.com" },
          { ID := 3, Name := "Bob", Email := "b@x" } ] =
      ({ status := 204, body := .message "user deleted" },
        [ { ID := 2, Name := "Jane Doe", Email := "jane@example.com" },
          { ID := 3, Name := "Bob", Email := "b@x" } ]) ∧
    createUser (.decoded { ID := none, Name := some "Cara", Email := none })
        [ { ID := 2, Name := "Jane Doe", Email := "jane@example.com" },
          { ID := 3, Name := "Bob", Email := "b@x" } ] =
      some ({ status := 201, body := .user { ID := 4, Name := "Cara", Email := "" } },
        [ { ID := 2, Name := "Jane Doe", Email := "jane@example.com" },
          { ID := 3, Name := "Bob", Email := "b@x" },
          { ID := 4, Name := "Cara", Email := "" } ]) := by
  refine ⟨by decide, by decide, by decide⟩

/-- C14: getUsers answers 200 with exactly the records of the store in their
sequence order and leaves the store as it is; on the store as initialised it
returns the two seed records John Doe (1) and Jane Doe (2), in that order. -/
theorem getUsers_lists_store (s : Store) :
    getUsers s = ({ status := StatusOK, body := .users s }, s) ∧
    (getUsers s).1.status = 200 ∧
    (getUsers s).1.body = .users s ∧
    (getUsers s).2 = s ∧
    (getUsers users).1.body =
      .users [ { ID := 1, Name := "John Doe", Email := "john@example.com" },
               { ID := 2, Name := "Jane Doe", Email := "jane@example.com" } ] :=
  ⟨rfl, rfl, rfl, rfl, rfl⟩

/-- C16: in every store reachable from the seed by create and delete operations
only, below integer overflow, the ids are strictly increasing in sequence
order; so on such a store, while its last id is below maxInt, createUser
assigns an id greater than every id in the store, an id no record carries. -/
theorem ids_increasing_of_reachableCreateDelete (s : Store) (h : ReachableCreateDelete s) :
    (s.map User.ID).Pairwise (· < ·) ∧
    ∀ (p : Fields) (last : User), s.getLast? = some last → last.ID < maxInt →
      ∃ u, createUser (.decoded p) s =
          some ({ status := StatusCreated, body := .user u }, s ++ [u]) ∧
        u.ID = last.ID + 1 ∧ (∀ x ∈ s, x.ID < u.ID) ∧ ¬ Present u.ID s := by
  have hasc : IdsAscending s := by
    induction h with
    | seed => exact IdsAscending_users
    | create body hr hk ih => exact IdsAscending_create body _ hk ih
    | delete id hr ih => exact IdsAscending_delete id _ ih
  refine ⟨hasc.1, ?_⟩
  intro p last hlast hlt
  obtain ⟨init, hs⟩ := List.getLast?_eq_some_iff.mp hlast
  subst hs
  have hlo : minInt ≤ last.ID := hasc.2 last (by simp)
  have hid : goAdd last.ID 1 = last.ID + 1 := goAdd_one_of_lt last.ID hlo hlt
  have hbelow : ∀ x ∈ init ++ [last], x.ID < last.ID + 1 := by
    intro x hx
    have hp := hasc.1
    rw [List.map_append, List.pairwise_append] at hp
    rcases List.mem_append.mp hx with hx | hx
    · have := hp.2.2 x.ID (List.mem_map_of_mem _ hx) last.ID (by simp)
      omega
    · simp only [List.mem_singleton] at hx
      subst hx
      omega
  refine ⟨{ ID := goAdd last.ID 1, Name := p.Name.getD "", Email := p.Email.getD "" },
    createUser_decoded_concat p init last, hid, ?_, ?_⟩
  · intro x hx
    show x.ID < goAdd last.ID 1
    rw [hid]; exact hbelow x hx
  · rintro ⟨x, hx, hxid⟩
    have := hbelow x hx
    have hxid2 : x.ID = goAdd last.ID 1 := hxid
    rw [hid] at hxid2
    omega

theorem ids_increasing_of_reachableCreateDelete_witness :
    ReachableCreateDelete
      ((Op.delete 1).run
        ((Op.create (.decoded { ID := none, Name := some "Bob", Email := some "b@x" })).run
          users)) ∧
    (((Op.delete 1).run
        ((Op.create (.decoded { ID := none, Name := some "Bob", Email := some "b@x" })).run
          users)).map User.ID).Pairwise (· < ·) ∧
    ∀ (p : Fields) (last : User),
      ((Op.delete 1).run
        ((Op.create (.decoded { ID := none, Name := some "Bob", Email := some "b@x" })).run
          users)).getLast? = some last →
      last.ID < maxInt →
      ∃ u, createUser (.decoded p)
            ((Op.delete 1).run
              ((Op.create (.decoded { ID := none, Name := some "Bob", Email := some "b@x" })).run
                users)) =
          some ({ status := StatusCreated, body := .user u },
            ((Op.delete 1).run
              ((Op.create (.decoded { ID := none, Name := some "Bob", Email := some "b@x" })).run
                users)) ++ [u]) ∧
        u.ID = last.ID + 1 ∧
        (∀ x ∈ (Op.delete 1).run
            ((Op.create (.decoded { ID := none, Name := some "Bob", Email := some "b@x" })).run
              users), x.ID < u.ID) ∧
        ¬ Present u.ID
          ((Op.delete 1).run
            ((Op.create (.decoded { ID := none, Name := some "Bob", Email := some "b@x" })).run
              users)) :=
  have hr : ReachableCreateDelete
      ((Op.delete 1).run
        ((Op.create (.decoded { ID := none, Name := some "Bob", Email := some "b@x" })).run
          users)) :=
    ReachableCreateDelete.delete 1
      (ReachableCreateDelete.create _ ReachableCreateDelete.seed
        (by
          intro last hlast
          simp only [users, List.getLast?_cons_cons, List.getLast?_singleton,
            Option.some.injEq] at hlast
          subst hlast
          simp [maxInt, intSize]))
  ⟨hr, ids_increasing_of_reachableCreateDelete _ hr⟩

/-! ## Path ids that are no decimal integers -/

theorem le_digitsValue (ds : List Char) : ∀ n : Nat, n ≤ digitsValue n ds := by
  induction ds with
  | nil => intro n; exact Nat.le_refl n
  | cons d ds ih =>
    intro n
    have h := ih (n * 10 + (d.toNat - 48))
    simp only [digitsValue, List.foldl_cons] at h ⊢
    omega

theorem parseUintLoop_errSyn (c : Char) (rest : List Char) (hc : c.isDigit = false) :
    ∀ (ds : List Char) (n : Nat), (∀ d ∈ ds, d.isDigit = true) →
      digitsValue n ds ≤ maxUint64 →
      parseUintLoop (ds ++ c :: rest) n = (0, some .errSyn) := by
  intro ds
  induction ds with
  | nil => intro n _ _; simp [parseUintLoop, hc]
  | cons d ds ih =>
    intro n hds hval
    have hd : d.isDigit = true := hds d (List.mem_cons_self _ _)
    have hval2 : digitsValue (n * 10 + (d.toNat - 48)) ds ≤ maxUint64 := by
      simpa only [digitsValue, List.foldl_cons] using hval
    have hle := le_digitsValue ds (n * 10 + (d.toNat - 48))
    have hn1 : n * 10 + (d.toNat - 48) ≤ maxUint64 := Nat.le_trans hle hval2
    have hmax : maxUint64 = 18446744073709551615 := by decide
    have hcut : ¬ n ≥ maxUint64 / 10 + 1 := by
      rw [hmax] at hn1 ⊢
      omega
    have hn1b : ¬ n * 10 + (d.toNat - 48) > maxUint64 := by omega
    simp only [List.cons_append, parseUintLoop, hd, Bool.not_true, Bool.false_eq_true,
      if_false, if_neg hcut, if_neg hn1b]
    exact ih (n * 10 + (d.toNat - 48)) (fun x hx => hds x (List.mem_cons_of_mem _ hx)) hval2

/-- A list with a character that is no digit splits at the first such one. -/
theorem exists_first_nondigit :
    ∀ t : List Char, t.all Char.isDigit = false →
      ∃ ds c rest, t = ds ++ c :: rest ∧ (∀ d ∈ ds, d.isDigit = true) ∧ c.isDigit = false ∧
        t.takeWhile Char.isDigit = ds := by
  intro t
  induction t with
  | nil => intro h; simp at h
  | cons x xs ih =>
    intro h
    by_cases hx : x.isDigit = true
    · have hxs : xs.all Char.isDigit = false := by
        simpa only [List.all_cons, hx, Bool.true_and] using h
      obtain ⟨ds, c, rest, hsplit, hds, hc, htw⟩ := ih hxs
      refine ⟨x :: ds, c, rest, by simp [hsplit], ?_, hc, ?_⟩
      · intro d hd
        rcases List.mem_cons.mp hd with rfl | hmem
        · exact hx
        · exact hds d hmem
      · simp [List.takeWhile_cons, hx, htw]
    · have hx2 : x.isDigit = false := by simpa using hx
      exact ⟨[], x, xs, rfl, by simp, hx2, by simp [List.takeWhile_cons, hx2]⟩

theorem parseUint_errSyn (t : List Char) (hnd : (!t.isEmpty && t.all Char.isDigit) = false)
    (hval : digitsValue 0 (t.takeWhile Char.isDigit) ≤ maxUint64) :
    parseUint t = (0, some .errSyn) := by
  cases t with
  | nil => rfl
  | cons x xs =>
    have hall : (x :: xs).all Char.isDigit = false := by
      simpa only [List.isEmpty_cons, Bool.not_false, Bool.true_and] using hnd
    obtain ⟨ds, c, rest, hsplit, hds, hc, htw⟩ := exists_first_nondigit (x :: xs) hall
    rw [htw] at hval
    have hloop := parseUintLoop_errSyn c rest hc ds 0 hds hval
    rw [← hsplit] at hloop
    simp only [parseUint, List.isEmpty_cons, Bool.false_eq_true, if_false]
    exact hloop

theorem parseInt_errSyn (cs : List Char)
    (h : parseUint (unsignedPart cs) = (0, some .errSyn)) :
    parseInt cs = (0, some .errSyn) := by
  cases cs with
  | nil => rfl
  | cons c t =>
    by_cases hsign : c = '+' ∨ c = '-'
    · have ht : parseUint t = (0, some .errSyn) := by
        simpa only [unsignedPart, if_pos hsign] using h
      rcases hsign with rfl | rfl
      · simp [parseInt, ht]
      · simp [parseInt, ht]
    · have ht : parseUint (c :: t) = (0, some .errSyn) := by
        simpa only [unsignedPart, if_neg hsign] using h
      have h1 : c ≠ '+' := fun he => hsign (Or.inl he)
      have h2 : c ≠ '-' := fun he => hsign (Or.inr he)
      simp [parseInt, h1, h2, ht]

/-- Function atoi on a string that is no decimal integer and whose leading
digits do not overflow a uint64. -/
theorem atoi_eq_zero (param : String) (hnd : isDecimalInteger param = false)
    (hval : leadingValue param ≤ maxUint64) : atoi param = 0 := by
  have hu : parseUint (unsignedPart param.toList) = (0, some .errSyn) :=
    parseUint_errSyn _ hnd hval
  simp only [atoi, parseInt_errSyn param.toList hu]

/-- C15 (as stated, refuted): the path id 99999999999999999999x is no decimal
integer, yet Atoi returns the largest int for it, not 0 (the digit loop stops on
the overflow before it reads the x). On the store reached from the seed by
update of record 1 with a body that carries id 0, getUser and deleteUser with
that path id answer NotFound, while with id 0 they return and remove John Doe. -/
theorem nonNumeric_path_id_clamped :
    isDecimalInteger "99999999999999999999x" = false ∧
    atoi "99999999999999999999x" = 9223372036854775807 ∧
    Reachable ((Op.update 1 (.decoded { ID := some 0, Name := none, Email := none })).run users) ∧
    (Op.update 1 (.decoded { ID := some 0, Name := none, Email := none })).run users =
      [ { ID := 0, Name := "John Doe", Email := "john@example.com" },
        { ID := 2, Name := "Jane Doe", Email := "jane@example.com" } ] ∧
    getUser { param := "99999999999999999999x", body := .failed "EOF" ⟨none, none, none⟩ }
        [ { ID := 0, Name := "John Doe", Email := "john@example.com" },
          { ID := 2, Name := "Jane Doe", Email := "jane@example.com" } ] =
      (notFound,
        [ { ID := 0, Name := "John Doe", Email := "john@example.com" },
          { ID := 2, Name := "Jane Doe", Email := "jane@example.com" } ]) ∧
    getUserById 0
        [ { ID := 0, Name := "John Doe", Email := "john@example.com" },
          { ID := 2, Name := "Jane Doe", Email := "jane@example.com" } ] =
      ({ status := 200, body := .user { ID := 0, Name := "John Doe", Email := "john@example.com" } },
        [ { ID := 0, Name := "John Doe", Email := "john@example.com" },
          { ID := 2, Name := "Jane Doe", Email := "jane@example.com" } ]) ∧
    deleteUser { param := "99999999999999999999x", body := .failed "EOF" ⟨none, none, none⟩ }
        [ { ID := 0, Name := "John Doe", Email := "john@example.com" },
          { ID := 2, Name := "Jane Doe", Email := "jane@example.com" } ] =
      (notFound,
        [ { ID := 0, Name := "John Doe", Email := "john@example.com" },
          { ID := 2, Name := "Jane Doe", Email := "jane@example.com" } ]) ∧
    deleteUserById 0
        [ { ID := 0, Name := "John Doe", Email := "john@example.com" },
          { ID := 2, Name := "Jane Doe", Email := "jane@example.com" } ] =
      ({ status := 204, body := .message "user deleted" },
        [ { ID := 2, Name := "Jane Doe", Email := "jane@example.com" } ]) :=
  ⟨by decide, by decide, Reachable.step _ Reachable.seed, by decide, by decide, by decide,
    by decide, by decide⟩

/-- C15 (amended): a path id that is no decimal integer and whose leading digits
(after an optional sign) do not exceed the largest uint64 is read as id 0 and
never answered with a request-level error: getUser, updateUser and deleteUser
behave exactly as for id 0, so they answer NotFound and leave the store when no
record carries id 0, and act on the first record with id 0 when there is one. -/
theorem nonNumeric_path_id_is_zero (c : Context) (s : Store)
    (hnd : isDecimalInteger c.param = false) (hval : leadingValue c.param ≤ maxUint64) :
    atoi c.param = 0 ∧
    getUser c s = getUserById 0 s ∧
    updateUser c s = updateUserById 0 c.body s ∧
    deleteUser c s = deleteUserById 0 s ∧
    (¬ Present 0 s →
      getUser c s = (notFound, s) ∧ updateUser c s = (notFound, s) ∧
        deleteUser c s = (notFound, s)) ∧
    (Present 0 s →
      ∃ a u b, s = a ++ u :: b ∧ (∀ x ∈ a, x.ID ≠ 0) ∧ u.ID = 0 ∧
        getUser c s = ({ status := StatusOK, body := .user u }, s) ∧
        (updateUser c s).2 = a ++ (bindJSON c.body u).1 :: b ∧
        deleteUser c s =
          ({ status := StatusNoContent, body := .message "user deleted" }, a ++ b)) := by
  have h0 : atoi c.param = 0 := atoi_eq_zero c.param hnd hval
  have hg : getUser c s = getUserById 0 s := by simp only [getUser, h0]
  have hu : updateUser c s = updateUserById 0 c.body s := by simp only [updateUser, h0]
  have hd : deleteUser c s = deleteUserById 0 s := by simp only [deleteUser, h0]
  refine ⟨h0, hg, hu, hd, ?_, ?_⟩
  · intro habs
    rw [hg, hu, hd]
    exact ⟨getUserById_absent 0 s habs, updateUserById_absent 0 c.body s habs,
      deleteUserById_absent 0 s habs⟩
  · intro hp
    obtain ⟨a, u, b, hs, ha, hu0⟩ := exists_first_match 0 s hp
    refine ⟨a, u, b, hs, ha, hu0, ?_, ?_, ?_⟩
    · rw [hg, hs]; exact getUserById_split 0 a u b ha hu0
    · rw [hu, hs, updateUserById_split 0 c.body a u b ha hu0]
    · rw [hd, hs]; exact deleteUserById_split 0 a u b ha hu0

theorem nonNumeric_path_id_is_zero_witness :
    isDecimalInteger "12a" = false ∧ leadingValue "12a" ≤ maxUint64 ∧
    atoi "12a" = 0 ∧
    getUser { param := "12a", body := .decoded ⟨none, some "N", none⟩ } users =
      getUserById 0 users ∧
    updateUser { param := "12a", body := .decoded ⟨none, some "N", none⟩ } users =
      updateUserById 0 (.decoded ⟨none, some "N", none⟩) users ∧
    deleteUser { param := "12a", body := .decoded ⟨none, some "N", none⟩ } users =
      deleteUserById 0 users :=
  ⟨by decide, by decide,
    (nonNumeric_path_id_is_zero { param := "12a", body := .decoded ⟨none, some "N", none⟩ } users
      (by decide) (by decide)).1,
    (nonNumeric_path_id_is_zero { param := "12a", body := .decoded ⟨none, some "N", none⟩ } users
      (by decide) (by decide)).2.1,
    (nonNumeric_path_id_is_zero { param := "12a", body := .decoded ⟨none, some "N", none⟩ } users
      (by decide) (by decide)).2.2.1,
    (nonNumeric_path_id_is_zero { param := "12a", body := .decoded ⟨none, some "N", none⟩ } users
      (by decide) (by decide)).2.2.2.1⟩

end GinSwagger
